import Mathlib

/-!
# Verification of `rest_framework_swagger/docgenerator.py`

A shallow embedding of the `DocumentationGenerator` class from
`docgenerator.py` (django-rest-swagger).  Python dictionaries are modelled
as association lists with Python's insertion-order/overwrite semantics;
JSON-serializable values are modelled by the inductive `JVal`.

The module `introspectors.py` is imported by `docgenerator.py` but is not
part of the sources under verification, so introspection results
(field attributes such as `read_only`, the data type returned by
`get_data_type`, serializer names, YAML-parser outputs, the `PRIMITIVES`
table) are carried as data on the embedded structures, modelled from the
specification's description of them.
-/

set_option maxHeartbeats 1000000

namespace DocGen

/-- JSON-serializable values produced by the generator. -/
inductive JVal : Type where
  | null : JVal
  | str : String → JVal
  | bool : Bool → JVal
  | int : Int → JVal
  | arr : List JVal → JVal
  | obj : List (String × JVal) → JVal


/-- `opt v` embeds a Python value that may be `None`: `None ↦ null`. -/
def jOptStr : Option String → JVal
  | some s => JVal.str s
  | none => JVal.null

/-- `opt` embedding for optional integers (`None ↦ null`). -/
def jOptInt : Option Int → JVal
  | some n => JVal.int n
  | none => JVal.null

/-- Python `d[k]` lookup on a dict modelled as an association list:
the first (hence unique, for lists built by `dinsert`) binding of `k`. -/
def dlookup (d : List (String × JVal)) (k : String) : Option JVal :=
  (d.find? (fun p => p.1 == k)).map (fun p => p.2)

/-- Python `k in d`. -/
def hasKey (d : List (String × JVal)) (k : String) : Bool :=
  d.any (fun p => p.1 == k)

/-- Python `d[k] = v`: overwrite in place if the key is present
(keeping its position, as Python dicts do), otherwise append. -/
def dinsert (d : List (String × JVal)) (k : String) (v : JVal) :
    List (String × JVal) :=
  if d.any (fun p => p.1 == k) then
    d.map (fun p => if p.1 == k then (k, v) else p)
  else
    d ++ [(k, v)]

/-- Python `d.update(u)`: insert every binding of `u` into `d` in order. -/
def dupdate (d u : List (String × JVal)) : List (String × JVal) :=
  u.foldl (fun acc p => dinsert acc p.1 p.2) d

/-- Attributes of a DRF serializer field, as read by `docgenerator.py`
through `getattr` and the helpers of the absent `introspectors.py`.
`data_type` stands for `get_data_type(field)` and `default_value` for
`get_default_value(field)`, both modelled from the spec as introspected
per-field data ("deriving a primitive type/format mapping"). -/
structure FldAttrs : Type where
  write_only : Bool
  read_only : Bool
  required : Bool
  data_type : String
  help_text : String
  default_value : JVal
  max_val : Option Int
  min_val : Option Int
  choices : Option (List (String × String))


mutual
/-- A DRF serializer class: its name (as produced by
`IntrospectorHelper.get_serializer_name`, modelled from the spec) and its
ordered fields (`serializer().get_fields()`). -/
inductive Ser : Type where
  | mk : String → Flds → Ser


/-- The ordered field dictionary of a serializer. -/
inductive Flds : Type where
  | nil : Flds
  | cons : String → Fld → Flds → Flds


/-- A serializer field: either a plain field, or one that is itself a
serializer (`isinstance(field, BaseSerializer)`).  A list-wrapped field
(`many=True` / `ListSerializer`) is `nested` with the flag set; its `child`
is the wrapped serializer. -/
inductive Fld : Type where
  | prim : FldAttrs → Fld
  | nested : FldAttrs → Bool → Ser → Fld

end

/-- The serializer's name. -/
def Ser.name : Ser → String
  | .mk n _ => n

/-- The serializer's fields. -/
def Ser.fields : Ser → Flds
  | .mk _ fs => fs

/-- The attributes of a field. -/
def Fld.attrs : Fld → FldAttrs
  | .prim a => a
  | .nested a _ _ => a

/-- The field dictionary as a list of (name, field) pairs. -/
def Flds.toList : Flds → List (String × Fld)
  | .nil => []
  | .cons n f rest => (n, f) :: rest.toList

/-- `PRIMITIVES`: the Swagger primitive type/format table of
`BaseMethodIntrospector`.  Modelled from the spec: `introspectors.py` is
not under the verified sources; the spec only says a "primitive
type/format mapping" is derived, so a representative Swagger 1.2
primitives table is used.  All theorems about it depend only on the
association-list lookup discipline, not on the concrete rows. -/
def PRIMITIVES : List (String × List String) :=
  [("integer", ["int32", "int64"]),
   ("number", ["float", "double"]),
   ("string", ["string", "byte", "date", "date-time"]),
   ("boolean", ["boolean"])]

/-- Python `data_type in PRIMITIVES` (membership in the dict's keys). -/
def isPrimitive (data_type : String) : Bool :=
  PRIMITIVES.any (fun p => p.1 == data_type)

/-- Python `PRIMITIVES.get(data_type)`. -/
def primitivesGet (data_type : String) : Option (List String) :=
  (PRIMITIVES.find? (fun p => p.1 == data_type)).map (fun p => p.2)

/-- `get_data_type(field)` of `introspectors.py`.  Modelled from the spec:
the introspected primitive data type is carried as a field attribute. -/
def get_data_type (f : Fld) : String :=
  f.attrs.data_type

/-- `get_default_value(field)` of `introspectors.py`.  Modelled from the
spec: the introspected default is carried as a field attribute. -/
def get_default_value (f : Fld) : JVal :=
  f.attrs.default_value

/-- `IntrospectorHelper.get_serializer_name` on a field that is a
serializer.  Modelled from the spec: for a list-wrapped serializer field
the name is that of the wrapped child serializer. -/
def fieldSerializerName (s : Ser) : String :=
  s.name

/-- `IntrospectorHelper.get_serializer_name` on an optional serializer
class (`None ↦ None`). -/
def getSerializerName : Option Ser → Option String
  | some s => some s.name
  | none => none

/-- The Swagger field dictionary `f` built for one field by
`DocumentationGenerator._get_serializer_fields` (lines 281-335):
base keys, the min/max keys for integers, the enum options, and the
complex-type (nested serializer) rewriting of `type`/`items`. -/
def fieldDict (f : Fld) : List (String × JVal) :=
  let a := f.attrs
  let data_type := get_data_type f
  -- guess format
  let data_format :=
    if isPrimitive data_type then
      ((primitivesGet data_type).getD []).headD "string"
    else "string"
  let description : JVal :=
    if a.help_text.trim == "" then JVal.null else JVal.str a.help_text
  let base : List (String × JVal) :=
    [("description", description),
     ("type", JVal.str data_type),
     ("format", JVal.str data_format),
     ("required", JVal.bool a.required),
     ("defaultValue", a.default_value),
     ("readOnly", JVal.bool a.read_only)]
  -- Min/Max values
  let base :=
    if a.max_val.isSome && (data_type == "integer") then
      dinsert base "minimum" (jOptInt a.min_val)
    else base
  let base :=
    if a.max_val.isSome && (data_type == "integer") then
      dinsert base "maximum" (jOptInt a.max_val)
    else base
  -- ENUM options
  let base :=
    match a.choices with
    | some cs =>
        if get_data_type f == "multiple choice" then
          dinsert base "enum" (JVal.arr (cs.map (fun p => JVal.str p.1)))
        else base
    | none => base
  -- Support for complex types
  match f with
  | .prim _ => base
  | .nested _ has_many child =>
      let field_serializer :=
        if a.write_only then "Write" ++ fieldSerializerName child
        else fieldSerializerName child
      let base := dinsert base "type" (JVal.str field_serializer)
      if has_many then
        let base := dinsert base "type" (JVal.str "array")
        if isPrimitive data_type then
          dinsert base "items" (JVal.obj [("type", JVal.str data_type)])
        else
          dinsert base "items" (JVal.obj [("$ref", JVal.str field_serializer)])
      else base

/-- The result dictionary of `_get_serializer_fields`. -/
structure SerData : Type where
  fields : List (String × JVal)
  required : List String
  write_only : List String
  read_only : List String


/-- The loop of `_get_serializer_fields` over the fields. -/
def serFieldsLoop (l : List (String × Fld)) : SerData :=
  l.foldl
    (fun data p =>
      let (name, field) := p
      { data with
        write_only :=
          if field.attrs.write_only then data.write_only ++ [name]
          else data.write_only,
        read_only :=
          if field.attrs.read_only then data.read_only ++ [name]
          else data.read_only,
        required :=
          if field.attrs.required then data.required ++ [name]
          else data.required,
        fields := data.fields ++ [(name, JVal.obj (fieldDict field))] })
    ⟨[], [], [], []⟩

/-- `DocumentationGenerator._get_serializer_fields`: returns the fields of
a serializer in the Swagger MODEL format. -/
def get_serializer_fields (s : Ser) : SerData :=
  serFieldsLoop s.fields.toList


/-- The YAML docstring parser of a method (`introspectors.py`, absent from
the verified sources).  Modelled from the spec ("docstring/YAML parsing"
and "docstring-provided overrides"): its outputs, as consumed by
`docgenerator.py`, are carried as data: `yaml_error`, the custom response
type (`get_response_type()`, a Swagger properties value when present),
`should_omit_serializer()` and `get_response_messages()`. -/
structure YamlParser : Type where
  yaml_error : Option String
  response_type : Option JVal
  should_omit : Bool
  response_messages : List JVal

/-- A method introspector (`BaseMethodIntrospector` of the absent
`introspectors.py`).  Modelled from the spec: the introspected values used
by `docgenerator.py` are carried as data — the HTTP method, the raw method
name (`.method`), summary, nickname, notes, the YAML parser, the result of
`doc_parser.discover_parameters(inspector=...)` and the method's response
serializer class (`get_response_serializer_class()`). -/
structure MethodIntrospector : Type where
  http_method : String
  method : String
  summary : String
  nickname : String
  notes : String
  docParser : YamlParser
  parameters : List JVal
  response_serializer : Option Ser

/-- A view introspector (result of
`DocumentationGenerator.get_introspector`, whose three introspector
classes live in the absent `introspectors.py`).  Modelled from the spec:
the callback class name (`callback.__name__`), the view description
(`IntrospectorHelper.get_view_description`) and the iterated items, where
`none` stands for an iterated item that is not a `BaseMethodIntrospector`
instance. -/
structure ViewIntrospector : Type where
  callback_name : String
  description : String
  methods : List (Option MethodIntrospector)

/-- One entry of the `apis` list: its path and its introspector (the
route-pattern dispatch of `get_introspector` is framework reflection,
absent from the verified sources; the resulting introspector is carried
directly). -/
structure Api : Type where
  path : String
  introspector : ViewIntrospector

/-- The class-level state of `DocumentationGenerator` that
`docgenerator.py` mutates and reads: `explicit_serializers`,
`explicit_response_types` and `fields_serializers`. -/
structure GenState : Type where
  explicit_serializers : List Ser
  explicit_response_types : List (String × JVal)
  fields_serializers : List (String × JVal)

/-- Python `str.title()` restricted to ASCII, as applied to DRF method
names: a character is uppercased when the previous character is not a
letter and lowercased otherwise. -/
def pyTitleGo : Bool → List Char → List Char
  | _, [] => []
  | prevAlpha, c :: cs =>
      (if prevAlpha then c.toLower else c.toUpper) :: pyTitleGo c.isAlpha cs

/-- Python `s.title()` on a method name. -/
def pyTitle (s : String) : String :=
  ⟨pyTitleGo false s.data⟩

/-- Python `str.replace` on character lists: replace the leftmost
occurrence of `pat`, continue after it (non-overlapping), with explicit
fuel so the function is structurally recursive and kernel-evaluable. -/
def pyReplaceFuel (pat rep : List Char) : Nat → List Char → List Char
  | _, [] => []
  | 0, s => s
  | n + 1, c :: cs =>
      if pat.isPrefixOf (c :: cs) then
        rep ++ pyReplaceFuel pat rep n ((c :: cs).drop pat.length)
      else
        c :: pyReplaceFuel pat rep n cs

/-- Python `s.replace(pat, rep)`: all non-overlapping occurrences,
scanned left to right (for the non-empty patterns the generator uses). -/
def pyReplace (s pat rep : String) : String :=
  if pat.data = [] then s
  else ⟨pyReplaceFuel pat.data rep.data s.data.length s.data⟩

/-- Lines 190-193 of `_get_method_response_type`: the view class name with
every occurrence of `'ViewSet'`, then `'APIView'`, then `'View'` replaced
by the empty string (Python `str.replace` replaces all occurrences). -/
def viewShortName (n : String) : String :=
  pyReplace (pyReplace (pyReplace n "ViewSet" "") "APIView" "") "View" ""

/-- The `'{view}{method}Response'` name registered for a docstring-provided
response type (lines 194-197). -/
def responseTypeName (callback_name method : String) : String :=
  viewShortName callback_name ++ pyReplace (pyTitle method) "_" "" ++
    "Response"

/-- `DocumentationGenerator._get_method_serializer`: the serializer used in
a method; `None` when the docstring provides a custom response type or
tells to omit the serializer. -/
def get_method_serializer (mi : MethodIntrospector) : Option Ser :=
  let serializer := mi.response_serializer
  if mi.docParser.response_type.isSome then
    none
  else if mi.docParser.should_omit then
    none
  else
    serializer

/-- `DocumentationGenerator._get_method_response_type`: the response type
for a method, together with the updated `explicit_response_types`
dictionary (the method mutates `self.explicit_response_types`). -/
def get_method_response_type (ert : List (String × JVal))
    (callback_name : String) (mi : MethodIntrospector) (serializer : Option Ser) :
    Option String × List (String × JVal) :=
  match mi.docParser.response_type with
  | some rt =>
      let response_type_name := responseTypeName callback_name mi.method
      (some response_type_name,
       dupdate ert
         [(response_type_name,
           JVal.obj [("id", JVal.str response_type_name),
                     ("properties", rt)])])
  | none =>
      match getSerializerName serializer with
      | some serializer_name => (some serializer_name, ert)
      | none => (none, ert)

/-- The operation dictionary built by the loop body of
`DocumentationGenerator.get_operations` (lines 66-93) for one method
introspector, together with the updated `explicit_response_types`. -/
def mkOperation (ert : List (String × JVal)) (callback_name : String)
    (mi : MethodIntrospector) : List (String × JVal) × List (String × JVal) :=
  let serializer := get_method_serializer mi
  let (response_type, ert') :=
    get_method_response_type ert callback_name mi serializer
  let operation : List (String × JVal) :=
    [("method", JVal.str mi.http_method),
     ("summary", JVal.str mi.summary),
     ("nickname", JVal.str mi.nickname),
     ("notes", JVal.str mi.notes),
     ("type", jOptStr response_type)]
  let operation :=
    match mi.docParser.yaml_error with
    | some err =>
        dinsert operation "notes"
          (JVal.str (mi.notes ++ "<pre>YAMLError:\n " ++ err ++ "</pre>"))
    | none => operation
  let response_messages := mi.docParser.response_messages
  let parameters := mi.parameters
  let operation :=
    if parameters.isEmpty then operation
    else operation ++ [("parameters", JVal.arr parameters)]
  let operation :=
    if response_messages.isEmpty then operation
    else operation ++ [("responseMessages", JVal.arr response_messages)]
  (operation, ert')

/-- The loop of `DocumentationGenerator.get_operations` over the iterated
method introspectors: items that are not method introspectors and OPTIONS
methods are skipped ("No one cares. I impose JSON."). -/
def operationsLoop (ert : List (String × JVal)) (callback_name : String) :
    List (Option MethodIntrospector) → List JVal × List (String × JVal)
  | [] => ([], ert)
  | none :: rest => operationsLoop ert callback_name rest
  | some mi :: rest =>
      if mi.http_method == "OPTIONS" then
        operationsLoop ert callback_name rest
      else
        let (operation, ert') := mkOperation ert callback_name mi
        let (ops, ert'') := operationsLoop ert' callback_name rest
        (JVal.obj operation :: ops, ert'')

/-- `DocumentationGenerator.get_operations`: docs for the allowed methods
of an API endpoint (threading the mutated `explicit_response_types`). -/
def get_operations (ert : List (String × JVal)) (api : Api) :
    List JVal × List (String × JVal) :=
  operationsLoop ert api.introspector.callback_name api.introspector.methods

/-- `DocumentationGenerator.generate`: documentation for a list of APIs
(threading the mutated `explicit_response_types`). -/
def generate (ert : List (String × JVal)) :
    List Api → List JVal × List (String × JVal)
  | [] => ([], ert)
  | api :: rest =>
      let (ops, ert') := get_operations ert api
      let doc : JVal :=
        JVal.obj [("description", JVal.str api.introspector.description),
                  ("path", JVal.str api.path),
                  ("operations", JVal.arr ops)]
      let (docs, ert'') := generate ert' rest
      (doc :: docs, ert'')

/-- `DocumentationGenerator._get_serializer_set`: the serializer classes of
a provided list of APIs (a Python `set`; modelled as the list of discovered
serializers, which only ever feeds a name-keyed dictionary). -/
def get_serializer_set (apis : List Api) : List Ser :=
  apis.foldl
    (fun acc api =>
      acc ++ api.introspector.methods.filterMap
        (fun m => m.bind get_method_serializer))
    []

mutual
/-- `DocumentationGenerator._find_field_serializers` restricted to one
serializer: the serializers discovered transitively from its fields
(a list-wrapped field contributes its child, via `get_thing`). -/
def serFieldSerializers : Ser → List Ser
  | .mk _ fs => fldsFieldSerializers fs

/-- `_find_field_serializers`: walk of a field dictionary. -/
def fldsFieldSerializers : Flds → List Ser
  | .nil => []
  | .cons _ f rest => fldFieldSerializers f ++ fldsFieldSerializers rest

/-- `_find_field_serializers`: contribution of one field — for a field
that is a serializer, the (unwrapped) serializer itself and, recursively,
the serializers of its fields. -/
def fldFieldSerializers : Fld → List Ser
  | .prim _ => []
  | .nested _ _ child => child :: serFieldSerializers child
end

/-- `DocumentationGenerator._find_field_serializers` on a set of
serializers. -/
def find_field_serializers (serializers : List Ser) : List Ser :=
  serializers.foldl (fun acc s => acc ++ serFieldSerializers s) []

/-- The serializer set over which the loop of `get_models` runs:
the serializers of the APIs, the explicit (docstring-provided) ones, and
every serializer found transitively in fields (lines 104-108). -/
def modelSerializers (apis : List Api) (explicit_serializers : List Ser) :
    List Ser :=
  let serializers := get_serializer_set apis ++ explicit_serializers
  serializers ++ find_field_serializers serializers

/-- The loop body of `get_models` (lines 112-145): register the write and
the read model variants of one serializer. -/
def registerSerializerModels (models : List (String × JVal)) (s : Ser) :
    List (String × JVal) :=
  let data := get_serializer_fields s
  let serializer_name := s.name
  -- Writing: no readonly fields
  let w_name := "Write" ++ serializer_name
  let w_properties := data.fields.filter (fun p => p.1 ∉ data.read_only)
  let models := dinsert models w_name
    (JVal.obj
      [("id", JVal.str w_name),
       ("required",
        JVal.arr ((data.required.filter
          (fun i => i ∈ w_properties.map (fun p => p.1))).map JVal.str)),
       ("properties", JVal.obj w_properties)])
  -- Reading: no write_only fields
  let r_name := serializer_name
  let r_properties := data.fields.filter (fun p => p.1 ∉ data.write_only)
  dinsert models r_name
    (JVal.obj
      [("id", JVal.str r_name),
       ("required", JVal.arr ((r_properties.map (fun p => p.1)).map JVal.str)),
       ("properties", JVal.obj r_properties)])

/-- `DocumentationGenerator.get_models`: the Swagger models for a list of
APIs, given the generator's class-level state. -/
def get_models (apis : List Api) (st : GenState) : List (String × JVal) :=
  let models :=
    (modelSerializers apis st.explicit_serializers).foldl
      registerSerializerModels []
  dupdate (dupdate models st.explicit_response_types) st.fields_serializers

/-- The claim's reading of lines 190-193, written from the claim's words
for refinement comparison with `viewShortName`: the view class name "has
the suffixes 'ViewSet', 'APIView' and 'View' removed" (each removed from
the end of the name when present there). -/
def viewShortNameSpec (n : String) : String :=
  let n := if ("ViewSet" : String).data.isSuffixOf n.data
    then String.mk (n.data.take (n.data.length - 7)) else n
  let n := if ("APIView" : String).data.isSuffixOf n.data
    then String.mk (n.data.take (n.data.length - 7)) else n
  if ("View" : String).data.isSuffixOf n.data
    then String.mk (n.data.take (n.data.length - 4)) else n

/-- `c` is the serializer of a serializer-typed field of `s`
(a list-wrapped serializer field counts through its child). -/
def serNests (s c : Ser) : Prop :=
  ∃ n a m, (n, Fld.nested a m c) ∈ s.fields.toList

/-- Object-level lookup on a produced JSON value. -/
def jGet : JVal → String → Option JVal
  | JVal.obj kvs, k => dlookup kvs k
  | _, _ => none

namespace W

/-- Witness data: a plain required string field. -/
def aPlain : FldAttrs :=
  ⟨false, false, true, "string", "", JVal.null, none, none, none⟩

/-- Witness data: a read-only field. -/
def aRead : FldAttrs :=
  ⟨false, true, false, "string", "", JVal.null, none, none, none⟩

/-- Witness data: a write-only required field. -/
def aWrite : FldAttrs :=
  ⟨true, false, true, "string", "", JVal.null, none, none, none⟩

/-- Witness data: an integer field with bounds. -/
def aInt : FldAttrs :=
  ⟨false, false, false, "integer", "", JVal.null, some 10, some 1, none⟩

/-- Witness data: an integer field with only a lower bound. -/
def aIntNoMax : FldAttrs :=
  ⟨false, false, false, "integer", "", JVal.null, none, some 1, none⟩

/-- Witness data: a serializer with one plain field. -/
def grandSer : Ser :=
  Ser.mk "Grand" (Flds.cons "g" (Fld.prim aPlain) Flds.nil)

/-- Witness data: a serializer nesting `grandSer`. -/
def childSer : Ser :=
  Ser.mk "Child" (Flds.cons "sub" (Fld.nested aPlain false grandSer) Flds.nil)

/-- Witness data: a serializer with a list-wrapped `childSer` field. -/
def topSer : Ser :=
  Ser.mk "Top" (Flds.cons "c" (Fld.nested aPlain true childSer) Flds.nil)

/-- Witness data: a flat serializer with read-only, write-only and plain
fields. -/
def simpleSer : Ser :=
  Ser.mk "User"
    (Flds.cons "id" (Fld.prim aRead)
      (Flds.cons "secret" (Fld.prim aWrite)
        (Flds.cons "name" (Fld.prim aPlain) Flds.nil)))

/-- Witness data: a GET method introspector returning the given
serializer, with no docstring overrides. -/
def mkMI (s : Option Ser) : MethodIntrospector :=
  ⟨"GET", "get", "sum", "nick", "the notes", ⟨none, none, false, []⟩, [], s⟩

/-- Witness data: an API whose view has one GET method on `simpleSer`. -/
def api1 : Api :=
  ⟨"/users", ⟨"UserView", "User operations", [some (mkMI (some simpleSer))]⟩⟩

/-- Witness data: an API whose view has one GET method on `topSer`. -/
def api2 : Api :=
  ⟨"/nested", ⟨"NestedView", "nested", [some (mkMI (some topSer))]⟩⟩

/-- Witness data: a method introspector whose docstring YAML provides a
response type. -/
def miRT : MethodIntrospector :=
  ⟨"POST", "partial_update", "s", "n", "notes",
   ⟨none, some (JVal.obj [("x", JVal.str "y")]), false, []⟩, [],
   some simpleSer⟩

/-- Witness data: a method introspector with a YAML parse error, one
parameter and one response message. -/
def miErr : MethodIntrospector :=
  ⟨"GET", "get", "s", "n", "base notes",
   ⟨some "bad yaml", none, false, [JVal.str "msg"]⟩, [JVal.str "param"],
   none⟩

end W


/-! ## Association-list (Python dict) lemmas -/

theorem find?_overwrite (d : List (String × JVal)) (k : String) (v : JVal)
    (h : d.any (fun p => p.1 == k) = true) :
    (d.map (fun p => if p.1 == k then (k, v) else p)).find?
        (fun p => p.1 == k) = some (k, v) := by
  induction d with
  | nil => simp at h
  | cons q rest ih =>
      by_cases hq : q.1 = k
      · have hb : (q.1 == k) = true := by simpa using hq
        have hhead : (if (q.1 == k) = true then (k, v) else q) = (k, v) := by
          simp [hb]
        rw [List.map_cons, hhead, List.find?_cons_of_pos _ (by simp)]
      · have hb : (q.1 == k) = false := by simpa using hq
        simp only [List.any_cons, hb, Bool.false_or] at h
        have hhead : (if (q.1 == k) = true then (k, v) else q) = q := by
          simp [hb]
        rw [List.map_cons, hhead, List.find?_cons_of_neg _ (by simp [hb])]
        exact ih h

theorem find?_overwrite_ne (d : List (String × JVal)) (k : String) (v : JVal)
    (k2 : String) (h : ¬ k = k2) :
    (d.map (fun p => if p.1 == k then (k, v) else p)).find?
        (fun p => p.1 == k2) = d.find? (fun p => p.1 == k2) := by
  induction d with
  | nil => simp
  | cons q rest ih =>
      by_cases hq : q.1 = k
      · have h1 : (q.1 == k) = true := by simpa using hq
        have h2 : (k == k2) = false := by simpa using h
        have h3 : (q.1 == k2) = false := by rw [hq]; simpa using h
        have hhead : (if (q.1 == k) = true then (k, v) else q) = (k, v) := by
          simp [h1]
        rw [List.map_cons, hhead, List.find?_cons_of_neg _ (by simp [h2]),
            List.find?_cons_of_neg _ (by simp [h3])]
        exact ih
      · have h1 : (q.1 == k) = false := by simpa using hq
        have hhead : (if (q.1 == k) = true then (k, v) else q) = q := by
          simp [h1]
        by_cases hq2 : q.1 = k2
        · have h2 : (q.1 == k2) = true := by simpa using hq2
          rw [List.map_cons, hhead, List.find?_cons_of_pos _ (by simp [h2]),
              List.find?_cons_of_pos _ (by simp [h2])]
        · have h2 : (q.1 == k2) = false := by simpa using hq2
          rw [List.map_cons, hhead, List.find?_cons_of_neg _ (by simp [h2]),
              List.find?_cons_of_neg _ (by simp [h2])]
          exact ih

theorem dlookup_append (d1 d2 : List (String × JVal)) (k : String) :
    dlookup (d1 ++ d2) k = (dlookup d1 k).or (dlookup d2 k) := by
  unfold dlookup
  rw [List.find?_append]
  cases d1.find? (fun p => p.1 == k) <;> simp

theorem dlookup_dinsert_self (d : List (String × JVal)) (k : String)
    (v : JVal) : dlookup (dinsert d k v) k = some v := by
  unfold dinsert
  by_cases h : d.any (fun p => p.1 == k) = true
  · rw [if_pos h]
    unfold dlookup
    rw [find?_overwrite d k v h]
    rfl
  · rw [if_neg h]
    rw [dlookup_append]
    have hd : dlookup d k = none := by
      unfold dlookup
      have hn : d.find? (fun p => p.1 == k) = none :=
        List.find?_eq_none.mpr (by
          intro x hx hb
          exact h (List.any_eq_true.mpr ⟨x, hx, hb⟩))
      rw [hn]
      rfl
    rw [hd]
    simp [dlookup, List.find?]

theorem dlookup_dinsert_ne (d : List (String × JVal)) (k : String) (v : JVal)
    (k2 : String) (h : ¬ k = k2) :
    dlookup (dinsert d k v) k2 = dlookup d k2 := by
  unfold dinsert
  by_cases hd : d.any (fun p => p.1 == k) = true
  · rw [if_pos hd]
    unfold dlookup
    rw [find?_overwrite_ne d k v k2 h]
  · rw [if_neg hd, dlookup_append]
    have h2 : (k == k2) = false := by simpa using h
    have hnone : dlookup [(k, v)] k2 = none := by
      simp [dlookup, List.find?, h2]
    rw [hnone]
    cases dlookup d k2 <;> simp

theorem dlookup_dinsert (d : List (String × JVal)) (k : String) (v : JVal)
    (k2 : String) :
    dlookup (dinsert d k v) k2 = (dlookup [(k, v)] k2).or (dlookup d k2) := by
  by_cases h : k = k2
  · subst h
    rw [dlookup_dinsert_self]
    simp [dlookup, List.find?]
  · rw [dlookup_dinsert_ne d k v k2 h]
    have h2 : (k == k2) = false := by simpa using h
    have hnone : dlookup [(k, v)] k2 = none := by
      simp [dlookup, List.find?, h2]
    rw [hnone]
    cases dlookup d k2 <;> simp

theorem dlookup_dupdate (d u : List (String × JVal)) (k : String) :
    dlookup (dupdate d u) k = (dlookup u.reverse k).or (dlookup d k) := by
  induction u generalizing d with
  | nil => simp [dupdate, dlookup]
  | cons q u2 ih =>
      show dlookup (dupdate (dinsert d q.1 q.2) u2) k = _
      rw [ih]
      rw [List.reverse_cons, dlookup_append, dlookup_dinsert d q.1 q.2 k]
      cases dlookup u2.reverse k <;> simp

theorem dlookup_dinsert_reverse (u : List (String × JVal)) (k : String)
    (v : JVal) : dlookup (dinsert u k v).reverse k = some v := by
  unfold dinsert
  by_cases h : u.any (fun p => p.1 == k) = true
  · rw [if_pos h]
    unfold dlookup
    rw [← List.map_reverse]
    rw [find?_overwrite u.reverse k v (by simpa using h)]
    rfl
  · rw [if_neg h]
    rw [List.reverse_append]
    show dlookup ((k, v) :: u.reverse) k = some v
    simp [dlookup, List.find?]

theorem dlookup_dupdate_dinsert (d u : List (String × JVal)) (k : String)
    (v : JVal) : dlookup (dupdate d (dinsert u k v)) k = some v := by
  rw [dlookup_dupdate, dlookup_dinsert_reverse]
  rfl

theorem hasKey_dinsert_self (d : List (String × JVal)) (k : String)
    (v : JVal) : hasKey (dinsert d k v) k = true := by
  unfold hasKey dinsert
  by_cases h : d.any (fun p => p.1 == k) = true
  · rw [if_pos h]
    rcases List.any_eq_true.mp h with ⟨q, hq, hqk⟩
    exact List.any_eq_true.mpr
      ⟨(k, v), List.mem_map.mpr ⟨q, hq, by simp [hqk]⟩, by simp⟩
  · rw [if_neg h]
    simp

theorem hasKey_dinsert_of (d : List (String × JVal)) (k : String) (v : JVal)
    (k2 : String) (h : hasKey d k2 = true) :
    hasKey (dinsert d k v) k2 = true := by
  unfold hasKey dinsert
  by_cases hd : d.any (fun p => p.1 == k) = true
  · rw [if_pos hd]
    rcases List.any_eq_true.mp h with ⟨q, hq, hqk⟩
    by_cases hqk2 : q.1 = k
    · refine List.any_eq_true.mpr
        ⟨(k, v), List.mem_map.mpr ⟨q, hq, by simp [hqk2]⟩, ?_⟩
      show (k == k2) = true
      rw [← hqk2]
      exact hqk
    · have hb : (q.1 == k) = false := by simpa using hqk2
      exact List.any_eq_true.mpr
        ⟨q, List.mem_map.mpr ⟨q, hq, by simp [hb]⟩, hqk⟩
  · rw [if_neg hd]
    unfold hasKey at h
    simp only [List.any_append, h, Bool.true_or]

theorem hasKey_dupdate_of (d u : List (String × JVal)) (k : String)
    (h : hasKey d k = true) : hasKey (dupdate d u) k = true := by
  induction u generalizing d with
  | nil => exact h
  | cons q u2 ih =>
      exact ih (dinsert d q.1 q.2) (hasKey_dinsert_of d q.1 q.2 k h)

/-! ## String name lemmas -/

theorem name_ne_write (n : String) : ¬ (n = "Write" ++ n) := by
  intro h
  have hlen := congrArg String.length h
  rw [String.length_append] at hlen
  have h5 : ("Write" : String).length = 5 := by decide
  rw [h5] at hlen
  omega

theorem write_append_inj {a b : String} (h : "Write" ++ a = "Write" ++ b) :
    a = b := by
  have hd := congrArg String.data h
  simp only [String.data_append] at hd
  exact String.ext (List.append_cancel_left hd)

/-! ## Lemmas about the model-registration loop of `get_models` -/

theorem registerSerializerModels_lookup_w (m : List (String × JVal))
    (s : Ser) :
    dlookup (registerSerializerModels m s) ("Write" ++ s.name) =
      some (JVal.obj
        [("id", JVal.str ("Write" ++ s.name)),
         ("required", JVal.arr (((get_serializer_fields s).required.filter
            (fun i => i ∈ ((get_serializer_fields s).fields.filter
              (fun p => p.1 ∉ (get_serializer_fields s).read_only)).map
                (fun p => p.1))).map JVal.str)),
         ("properties", JVal.obj ((get_serializer_fields s).fields.filter
            (fun p => p.1 ∉ (get_serializer_fields s).read_only)))]) := by
  simp only [registerSerializerModels]
  rw [dlookup_dinsert_ne _ _ _ _ (name_ne_write s.name), dlookup_dinsert_self]

theorem registerSerializerModels_lookup_r (m : List (String × JVal))
    (s : Ser) :
    dlookup (registerSerializerModels m s) s.name =
      some (JVal.obj
        [("id", JVal.str s.name),
         ("required", JVal.arr ((((get_serializer_fields s).fields.filter
            (fun p => p.1 ∉ (get_serializer_fields s).write_only)).map
              (fun p => p.1)).map JVal.str)),
         ("properties", JVal.obj ((get_serializer_fields s).fields.filter
            (fun p => p.1 ∉ (get_serializer_fields s).write_only)))]) := by
  simp only [registerSerializerModels]
  rw [dlookup_dinsert_self]

theorem registerSerializerModels_lookup_other (m : List (String × JVal))
    (s : Ser) (k : String) (hw : ¬ ("Write" ++ s.name = k))
    (hr : ¬ (s.name = k)) :
    dlookup (registerSerializerModels m s) k = dlookup m k := by
  simp only [registerSerializerModels]
  rw [dlookup_dinsert_ne _ _ _ _ hr, dlookup_dinsert_ne _ _ _ _ hw]

theorem foldl_register_lookup_of_ne (l : List Ser) (m : List (String × JVal))
    (k : String)
    (h : ∀ t ∈ l, ¬ ("Write" ++ t.name = k) ∧ ¬ (t.name = k)) :
    dlookup (l.foldl registerSerializerModels m) k = dlookup m k := by
  induction l generalizing m with
  | nil => rfl
  | cons t rest ih =>
      rw [List.foldl_cons]
      rw [ih (registerSerializerModels m t)
            (fun u hu => h u (List.mem_cons_of_mem t hu))]
      exact registerSerializerModels_lookup_other m t k
        (h t (List.mem_cons_self t rest)).1 (h t (List.mem_cons_self t rest)).2

theorem get_models_lookup_split (apis : List Api) (expl : List Ser) (s : Ser)
    (l1 l2 : List Ser)
    (hsplit : modelSerializers apis expl = l1 ++ s :: l2)
    (hafter : ∀ t ∈ l2, ¬ (t.name = s.name) ∧ ¬ (t.name = "Write" ++ s.name)
      ∧ ¬ ("Write" ++ t.name = s.name)) :
    dlookup (get_models apis ⟨expl, [], []⟩) ("Write" ++ s.name) =
      some (JVal.obj
        [("id", JVal.str ("Write" ++ s.name)),
         ("required", JVal.arr (((get_serializer_fields s).required.filter
            (fun i => i ∈ ((get_serializer_fields s).fields.filter
              (fun p => p.1 ∉ (get_serializer_fields s).read_only)).map
                (fun p => p.1))).map JVal.str)),
         ("properties", JVal.obj ((get_serializer_fields s).fields.filter
            (fun p => p.1 ∉ (get_serializer_fields s).read_only)))]) ∧
    dlookup (get_models apis ⟨expl, [], []⟩) s.name =
      some (JVal.obj
        [("id", JVal.str s.name),
         ("required", JVal.arr ((((get_serializer_fields s).fields.filter
            (fun p => p.1 ∉ (get_serializer_fields s).write_only)).map
              (fun p => p.1)).map JVal.str)),
         ("properties", JVal.obj ((get_serializer_fields s).fields.filter
            (fun p => p.1 ∉ (get_serializer_fields s).write_only)))]) := by
  have hm : get_models apis ⟨expl, [], []⟩ =
      (modelSerializers apis expl).foldl registerSerializerModels [] := rfl
  rw [hm, hsplit, List.foldl_append, List.foldl_cons]
  constructor
  · rw [foldl_register_lookup_of_ne l2 _ _ (fun t ht =>
      ⟨fun hc => (hafter t ht).1 (write_append_inj hc),
       (hafter t ht).2.1⟩)]
    exact registerSerializerModels_lookup_w _ s
  · rw [foldl_register_lookup_of_ne l2 _ _ (fun t ht =>
      ⟨(hafter t ht).2.2, (hafter t ht).1⟩)]
    exact registerSerializerModels_lookup_r _ s

/-- C1: for every serializer processed by `get_models` (given that no
later-processed serializer collides with its model names), the models
dictionary holds a write variant keyed `Write{name}` whose properties are
the serializer's fields with the read-only fields removed, and a read
variant keyed `{name}` whose properties are the serializer's fields with
the write-only fields removed. -/
theorem claim_C1 (apis : List Api) (expl : List Ser) (s : Ser)
    (l1 l2 : List Ser)
    (hsplit : modelSerializers apis expl = l1 ++ s :: l2)
    (hafter : ∀ t ∈ l2, ¬ (t.name = s.name) ∧ ¬ (t.name = "Write" ++ s.name)
      ∧ ¬ ("Write" ++ t.name = s.name)) :
    (∃ wreq, dlookup (get_models apis ⟨expl, [], []⟩) ("Write" ++ s.name) =
      some (JVal.obj
        [("id", JVal.str ("Write" ++ s.name)),
         ("required", wreq),
         ("properties", JVal.obj ((get_serializer_fields s).fields.filter
            (fun p => p.1 ∉ (get_serializer_fields s).read_only)))])) ∧
    (∃ rreq, dlookup (get_models apis ⟨expl, [], []⟩) s.name =
      some (JVal.obj
        [("id", JVal.str s.name),
         ("required", rreq),
         ("properties", JVal.obj ((get_serializer_fields s).fields.filter
            (fun p => p.1 ∉ (get_serializer_fields s).write_only)))])) := by
  obtain ⟨hw, hr⟩ := get_models_lookup_split apis expl s l1 l2 hsplit hafter
  exact ⟨⟨_, hw⟩, ⟨_, hr⟩⟩

/-- Witness for C1: a one-API documentation run on a flat serializer
`User` with a read-only field `id`, a write-only field `secret` and a
plain field `name`. -/
theorem claim_C1_witness :
    (modelSerializers [W.api1] [] = [] ++ W.simpleSer :: []) ∧
    ((∃ wreq, dlookup (get_models [W.api1] ⟨[], [], []⟩)
        ("Write" ++ W.simpleSer.name) =
      some (JVal.obj
        [("id", JVal.str ("Write" ++ W.simpleSer.name)),
         ("required", wreq),
         ("properties",
          JVal.obj ((get_serializer_fields W.simpleSer).fields.filter
            (fun p => p.1 ∉ (get_serializer_fields W.simpleSer).read_only)))])) ∧
    (∃ rreq, dlookup (get_models [W.api1] ⟨[], [], []⟩) W.simpleSer.name =
      some (JVal.obj
        [("id", JVal.str W.simpleSer.name),
         ("required", rreq),
         ("properties",
          JVal.obj ((get_serializer_fields W.simpleSer).fields.filter
            (fun p => p.1 ∉ (get_serializer_fields W.simpleSer).write_only)))]))) :=
  ⟨rfl, claim_C1 [W.api1] [] W.simpleSer [] [] rfl (by simp)⟩

/-- C8: in the models produced by `get_models`, the read variant's
`required` list is the list of all of its property names, while the write
variant's `required` list is the introspected required names restricted to
the properties surviving the read-only filter. -/
theorem claim_C8 (apis : List Api) (expl : List Ser) (s : Ser)
    (l1 l2 : List Ser)
    (hsplit : modelSerializers apis expl = l1 ++ s :: l2)
    (hafter : ∀ t ∈ l2, ¬ (t.name = s.name) ∧ ¬ (t.name = "Write" ++ s.name)
      ∧ ¬ ("Write" ++ t.name = s.name)) :
    (∃ w, dlookup (get_models apis ⟨expl, [], []⟩) ("Write" ++ s.name) =
        some w ∧
      jGet w "required" =
        some (JVal.arr (((get_serializer_fields s).required.filter
          (fun i => i ∈ ((get_serializer_fields s).fields.filter
            (fun p => p.1 ∉ (get_serializer_fields s).read_only)).map
              (fun p => p.1))).map JVal.str))) ∧
    (∃ r, dlookup (get_models apis ⟨expl, [], []⟩) s.name = some r ∧
      jGet r "required" =
        some (JVal.arr ((((get_serializer_fields s).fields.filter
          (fun p => p.1 ∉ (get_serializer_fields s).write_only)).map
            (fun p => p.1)).map JVal.str))) := by
  obtain ⟨hw, hr⟩ := get_models_lookup_split apis expl s l1 l2 hsplit hafter
  exact ⟨⟨_, hw, rfl⟩, ⟨_, hr, rfl⟩⟩

/-- Witness for C8: on the `User` serializer of `claim_C1_witness`, the
read model requires every readable field and the write model keeps only
the required fields that are not read-only. -/
theorem claim_C8_witness :
    (modelSerializers [W.api1] [] = [] ++ W.simpleSer :: []) ∧
    ((∃ w, dlookup (get_models [W.api1] ⟨[], [], []⟩)
        ("Write" ++ W.simpleSer.name) = some w ∧
      jGet w "required" =
        some (JVal.arr (((get_serializer_fields W.simpleSer).required.filter
          (fun i => i ∈ ((get_serializer_fields W.simpleSer).fields.filter
            (fun p => p.1 ∉ (get_serializer_fields W.simpleSer).read_only)).map
              (fun p => p.1))).map JVal.str))) ∧
    (∃ r, dlookup (get_models [W.api1] ⟨[], [], []⟩) W.simpleSer.name =
        some r ∧
      jGet r "required" =
        some (JVal.arr ((((get_serializer_fields W.simpleSer).fields.filter
          (fun p => p.1 ∉ (get_serializer_fields W.simpleSer).write_only)).map
            (fun p => p.1)).map JVal.str)))) :=
  ⟨rfl, claim_C8 [W.api1] [] W.simpleSer [] [] rfl (by simp)⟩

/-! ## The nested-serializer walk (`_find_field_serializers`) -/

mutual
theorem serFS_trans : ∀ (s : Ser) (c : Ser), c ∈ serFieldSerializers s →
    ∀ d, d ∈ serFieldSerializers c → d ∈ serFieldSerializers s
  | .mk _ fs, c, hc, d, hd => fldsFS_trans fs c hc d hd

theorem fldsFS_trans : ∀ (fs : Flds) (c : Ser), c ∈ fldsFieldSerializers fs →
    ∀ d, d ∈ serFieldSerializers c → d ∈ fldsFieldSerializers fs
  | .nil, c, hc, _, _ => absurd hc (by simp [fldsFieldSerializers])
  | .cons nm f rest, c, hc, d, hd => by
      rw [fldsFieldSerializers] at hc ⊢
      rcases List.mem_append.mp hc with h1 | h2
      · exact List.mem_append.mpr (Or.inl (fldFS_trans f c h1 d hd))
      · exact List.mem_append.mpr (Or.inr (fldsFS_trans rest c h2 d hd))

theorem fldFS_trans : ∀ (f : Fld) (c : Ser), c ∈ fldFieldSerializers f →
    ∀ d, d ∈ serFieldSerializers c → d ∈ fldFieldSerializers f
  | .prim _, c, hc, _, _ => absurd hc (by simp [fldFieldSerializers])
  | .nested _ _ child, c, hc, d, hd => by
      rw [fldFieldSerializers] at hc ⊢
      rcases List.mem_cons.mp hc with h1 | h2
      · subst h1
        exact List.mem_cons_of_mem _ hd
      · exact List.mem_cons_of_mem _ (serFS_trans child c h2 d hd)
end

theorem mem_fldsFS_of_nested : ∀ (fs : Flds) (n : String) (a : FldAttrs)
    (m : Bool) (c : Ser), (n, Fld.nested a m c) ∈ fs.toList →
    c ∈ fldsFieldSerializers fs
  | .nil, _, _, _, _, hm => absurd hm (by simp [Flds.toList])
  | .cons fn f rest, n, a, m, c, hm => by
      rw [Flds.toList] at hm
      rw [fldsFieldSerializers]
      rcases List.mem_cons.mp hm with h1 | h2
      · have hf : f = Fld.nested a m c := congrArg Prod.snd h1.symm
        subst hf
        rw [fldFieldSerializers]
        exact List.mem_append.mpr (Or.inl (List.mem_cons_self _ _))
      · exact List.mem_append.mpr
          (Or.inr (mem_fldsFS_of_nested rest n a m c h2))

theorem serNests_mem_serFieldSerializers {s c : Ser} (h : serNests s c) :
    c ∈ serFieldSerializers s := by
  obtain ⟨n, a, m, hm⟩ := h
  cases s with
  | mk nm fs =>
      rw [serFieldSerializers]
      simp only [Ser.fields] at hm
      exact mem_fldsFS_of_nested fs n a m c hm

theorem reach_mem_serFieldSerializers {s c : Ser}
    (h : Relation.TransGen serNests s c) : c ∈ serFieldSerializers s := by
  induction h with
  | single hstep => exact serNests_mem_serFieldSerializers hstep
  | tail _ hstep ih =>
      exact serFS_trans _ _ ih _ (serNests_mem_serFieldSerializers hstep)

theorem foldl_append_eq_flatMap {α β : Type} (f : β → List α) (l : List β)
    (acc : List α) :
    l.foldl (fun a s => a ++ f s) acc = acc ++ l.flatMap f := by
  induction l generalizing acc with
  | nil => simp
  | cons b rest ih => simp [ih, List.flatMap_cons, List.append_assoc]

theorem mem_find_field_serializers {l : List Ser} {s x : Ser}
    (hs : s ∈ l) (hx : x ∈ serFieldSerializers s) :
    x ∈ find_field_serializers l := by
  unfold find_field_serializers
  rw [foldl_append_eq_flatMap]
  exact List.mem_append.mpr (Or.inr (List.mem_flatMap.mpr ⟨s, hs, hx⟩))

/-! ## Key-presence lemmas for `get_models` -/

theorem hasKey_register_of (m : List (String × JVal)) (s : Ser) (k : String)
    (h : hasKey m k = true) :
    hasKey (registerSerializerModels m s) k = true := by
  simp only [registerSerializerModels]
  exact hasKey_dinsert_of _ _ _ _ (hasKey_dinsert_of _ _ _ _ h)

theorem hasKey_register_r (m : List (String × JVal)) (s : Ser) :
    hasKey (registerSerializerModels m s) s.name = true := by
  simp only [registerSerializerModels]
  exact hasKey_dinsert_self _ _ _

theorem hasKey_register_w (m : List (String × JVal)) (s : Ser) :
    hasKey (registerSerializerModels m s) ("Write" ++ s.name) = true := by
  simp only [registerSerializerModels]
  exact hasKey_dinsert_of _ _ _ _ (hasKey_dinsert_self _ _ _)

theorem foldl_register_hasKey_of (l : List Ser) (m : List (String × JVal))
    (k : String) (h : hasKey m k = true) :
    hasKey (l.foldl registerSerializerModels m) k = true := by
  induction l generalizing m with
  | nil => exact h
  | cons t rest ih => exact ih _ (hasKey_register_of m t k h)

theorem foldl_register_hasKey_mem (l : List Ser) (m : List (String × JVal))
    (s : Ser) (hs : s ∈ l) :
    hasKey (l.foldl registerSerializerModels m) s.name = true ∧
    hasKey (l.foldl registerSerializerModels m) ("Write" ++ s.name) = true := by
  induction l generalizing m with
  | nil => cases hs
  | cons t rest ih =>
      rcases List.mem_cons.mp hs with h1 | h2
      · subst h1
        exact ⟨foldl_register_hasKey_of rest _ _ (hasKey_register_r m s),
               foldl_register_hasKey_of rest _ _ (hasKey_register_w m s)⟩
      · exact ih _ h2

/-- C3: `get_models` produces a model not only for the serializers used
directly by the APIs' methods (and the explicit ones), but for every
serializer reachable transitively through serializer-typed fields,
list-wrapped serializers being unwrapped to their child. -/
theorem claim_C3 (apis : List Api) (st : GenState) (s c : Ser)
    (hs : s ∈ get_serializer_set apis ++ st.explicit_serializers)
    (hreach : Relation.TransGen serNests s c) :
    hasKey (get_models apis st) c.name = true ∧
    hasKey (get_models apis st) ("Write" ++ c.name) = true := by
  have hmem : c ∈ modelSerializers apis st.explicit_serializers := by
    unfold modelSerializers
    exact List.mem_append.mpr (Or.inr (mem_find_field_serializers hs
      (reach_mem_serFieldSerializers hreach)))
  have hfold := foldl_register_hasKey_mem
    (modelSerializers apis st.explicit_serializers) [] c hmem
  exact ⟨hasKey_dupdate_of _ _ _ (hasKey_dupdate_of _ _ _ hfold.1),
         hasKey_dupdate_of _ _ _ (hasKey_dupdate_of _ _ _ hfold.2)⟩

/-- Witness for C3: a view returning `Top`, whose list-wrapped field nests
`Child`, which in turn nests `Grand`; `Grand` gets both model entries. -/
theorem claim_C3_witness :
    (W.topSer ∈ get_serializer_set [W.api2] ++ ([] : List Ser)) ∧
    Relation.TransGen serNests W.topSer W.grandSer ∧
    (hasKey (get_models [W.api2] ⟨[], [], []⟩) W.grandSer.name = true ∧
     hasKey (get_models [W.api2] ⟨[], [], []⟩)
       ("Write" ++ W.grandSer.name) = true) := by
  have hs : W.topSer ∈ get_serializer_set [W.api2] ++ ([] : List Ser) :=
    show W.topSer ∈ [W.topSer] from List.mem_singleton.mpr rfl
  have h1 : serNests W.topSer W.childSer :=
    ⟨"c", W.aPlain, true,
     show _ ∈ [("c", Fld.nested W.aPlain true W.childSer)] from
       List.mem_singleton.mpr rfl⟩
  have h2 : serNests W.childSer W.grandSer :=
    ⟨"sub", W.aPlain, false,
     show _ ∈ [("sub", Fld.nested W.aPlain false W.grandSer)] from
       List.mem_singleton.mpr rfl⟩
  have hreach : Relation.TransGen serNests W.topSer W.grandSer :=
    Relation.TransGen.tail (Relation.TransGen.single h1) h2
  exact ⟨hs, hreach, claim_C3 [W.api2] ⟨[], [], []⟩ W.topSer W.grandSer hs hreach⟩

/-! ## Field-dictionary lemmas -/

theorem hasKey_eq_isSome (d : List (String × JVal)) (k : String) :
    hasKey d k = (dlookup d k).isSome := by
  unfold hasKey dlookup
  cases hfind : d.find? (fun p => p.1 == k) with
  | none =>
      show d.any (fun p => p.1 == k) = false
      rw [List.any_eq_false]
      intro x hx
      exact List.find?_eq_none.mp hfind x hx
  | some q =>
      show d.any (fun p => p.1 == k) = true
      have hpq := @List.find?_some _ (fun p => p.1 == k) q d hfind
      exact List.any_eq_true.mpr
        ⟨q, List.mem_of_find?_eq_some hfind, hpq⟩

theorem isPrimitive_eq_isSome (dt : String) :
    isPrimitive dt = (primitivesGet dt).isSome := by
  unfold isPrimitive primitivesGet
  cases hfind : PRIMITIVES.find? (fun p => p.1 == dt) with
  | none =>
      show PRIMITIVES.any (fun p => p.1 == dt) = false
      rw [List.any_eq_false]
      intro x hx
      exact List.find?_eq_none.mp hfind x hx
  | some q =>
      show PRIMITIVES.any (fun p => p.1 == dt) = true
      have hpq := @List.find?_some _ (fun p => p.1 == dt) q PRIMITIVES hfind
      exact List.any_eq_true.mpr
        ⟨q, List.mem_of_find?_eq_some hfind, hpq⟩

theorem dlookup_ite_dinsert_ne (c : Prop) [Decidable c]
    (d : List (String × JVal)) (k : String) (v : JVal) (k2 : String)
    (h : ¬ k = k2) :
    dlookup (if c then dinsert d k v else d) k2 = dlookup d k2 := by
  split
  · exact dlookup_dinsert_ne d k v k2 h
  · rfl

theorem fieldDict_nested_lookup_ne (a : FldAttrs) (m : Bool) (child : Ser)
    (k : String) (htype : ¬ ("type" = k)) (hitems : ¬ ("items" = k)) :
    dlookup (fieldDict (Fld.nested a m child)) k =
      dlookup (fieldDict (Fld.prim a)) k := by
  simp only [fieldDict, get_data_type, Fld.attrs]
  cases m with
  | false =>
      rw [if_neg (by simp)]
      rw [dlookup_dinsert_ne _ _ _ _ htype]
  | true =>
      rw [if_pos rfl]
      by_cases hp : isPrimitive a.data_type = true
      · rw [if_pos hp]
        rw [dlookup_dinsert_ne _ _ _ _ hitems,
            dlookup_dinsert_ne _ _ _ _ htype,
            dlookup_dinsert_ne _ _ _ _ htype]
      · rw [if_neg hp]
        rw [dlookup_dinsert_ne _ _ _ _ hitems,
            dlookup_dinsert_ne _ _ _ _ htype,
            dlookup_dinsert_ne _ _ _ _ htype]

theorem fieldDict_prim_format (a : FldAttrs) :
    dlookup (fieldDict (Fld.prim a)) "format" =
      some (JVal.str (if isPrimitive a.data_type
        then ((primitivesGet a.data_type).getD []).headD "string"
        else "string")) := by
  simp only [fieldDict, get_data_type, Fld.attrs]
  cases hch : a.choices with
  | none =>
      rw [dlookup_ite_dinsert_ne _ _ _ _ _ (by decide),
          dlookup_ite_dinsert_ne _ _ _ _ _ (by decide)]
      rfl
  | some cs =>
      rw [dlookup_ite_dinsert_ne _ _ _ _ _ (by decide),
          dlookup_ite_dinsert_ne _ _ _ _ _ (by decide),
          dlookup_ite_dinsert_ne _ _ _ _ _ (by decide)]
      rfl

theorem fieldDict_format (f : Fld) :
    dlookup (fieldDict f) "format" =
      some (JVal.str (if isPrimitive (get_data_type f)
        then ((primitivesGet (get_data_type f)).getD []).headD "string"
        else "string")) := by
  cases f with
  | prim a => exact fieldDict_prim_format a
  | nested a m child =>
      rw [fieldDict_nested_lookup_ne a m child "format" (by decide) (by decide)]
      exact fieldDict_prim_format a

theorem fieldDict_prim_type (a : FldAttrs) :
    dlookup (fieldDict (Fld.prim a)) "type" = some (JVal.str a.data_type) := by
  simp only [fieldDict, get_data_type, Fld.attrs]
  cases hch : a.choices with
  | none =>
      rw [dlookup_ite_dinsert_ne _ _ _ _ _ (by decide),
          dlookup_ite_dinsert_ne _ _ _ _ _ (by decide)]
      rfl
  | some cs =>
      rw [dlookup_ite_dinsert_ne _ _ _ _ _ (by decide),
          dlookup_ite_dinsert_ne _ _ _ _ _ (by decide),
          dlookup_ite_dinsert_ne _ _ _ _ _ (by decide)]
      rfl

theorem fieldDict_prim_min_max (a : FldAttrs) :
    (dlookup (fieldDict (Fld.prim a)) "minimum" =
      if (a.max_val.isSome && (a.data_type == "integer")) = true
      then some (jOptInt a.min_val) else none) ∧
    (dlookup (fieldDict (Fld.prim a)) "maximum" =
      if (a.max_val.isSome && (a.data_type == "integer")) = true
      then some (jOptInt a.max_val) else none) := by
  constructor
  · cases hch : a.choices with
    | none =>
        simp only [fieldDict, get_data_type, Fld.attrs, hch]
        by_cases hc : (a.max_val.isSome && (a.data_type == "integer")) = true
        · simp only [if_pos hc]
          rw [dlookup_dinsert_ne _ _ _ _ (by decide), dlookup_dinsert_self]
        · simp only [if_neg hc]
          rfl
    | some cs =>
        simp only [fieldDict, get_data_type, Fld.attrs, hch]
        rw [dlookup_ite_dinsert_ne _ _ _ _ _ (by decide)]
        by_cases hc : (a.max_val.isSome && (a.data_type == "integer")) = true
        · simp only [if_pos hc]
          rw [dlookup_dinsert_ne _ _ _ _ (by decide), dlookup_dinsert_self]
        · simp only [if_neg hc]
          rfl
  · cases hch : a.choices with
    | none =>
        simp only [fieldDict, get_data_type, Fld.attrs, hch]
        by_cases hc : (a.max_val.isSome && (a.data_type == "integer")) = true
        · simp only [if_pos hc]
          rw [dlookup_dinsert_self]
        · simp only [if_neg hc]
          rfl
    | some cs =>
        simp only [fieldDict, get_data_type, Fld.attrs, hch]
        rw [dlookup_ite_dinsert_ne _ _ _ _ _ (by decide)]
        by_cases hc : (a.max_val.isSome && (a.data_type == "integer")) = true
        · simp only [if_pos hc]
          rw [dlookup_dinsert_self]
        · simp only [if_neg hc]
          rfl

theorem fieldDict_min_max (f : Fld) :
    (dlookup (fieldDict f) "minimum" =
      if (f.attrs.max_val.isSome && (get_data_type f == "integer")) = true
      then some (jOptInt f.attrs.min_val) else none) ∧
    (dlookup (fieldDict f) "maximum" =
      if (f.attrs.max_val.isSome && (get_data_type f == "integer")) = true
      then some (jOptInt f.attrs.max_val) else none) := by
  cases f with
  | prim a => exact fieldDict_prim_min_max a
  | nested a m child =>
      rw [fieldDict_nested_lookup_ne a m child "minimum" (by decide) (by decide),
          fieldDict_nested_lookup_ne a m child "maximum" (by decide) (by decide)]
      exact fieldDict_prim_min_max a

/-- C4: a serializer-typed field's `type` is the nested serializer's name
(`Write`-prefixed when the field is write-only); a list-wrapped serializer
field's `type` is `array` with an `items` entry that is `{'type': dt}`
for a primitive data type `dt` and `{'$ref': name}` otherwise. -/
theorem claim_C4 (a : FldAttrs) (child : Ser) :
    (dlookup (fieldDict (Fld.nested a false child)) "type" =
      some (JVal.str (if a.write_only = true
        then "Write" ++ child.name else child.name))) ∧
    (dlookup (fieldDict (Fld.nested a true child)) "type" =
      some (JVal.str "array")) ∧
    (dlookup (fieldDict (Fld.nested a true child)) "items" =
      some (if isPrimitive a.data_type = true
        then JVal.obj [("type", JVal.str a.data_type)]
        else JVal.obj [("$ref", JVal.str (if a.write_only = true
          then "Write" ++ child.name else child.name))])) := by
  refine ⟨?_, ?_, ?_⟩
  · simp only [fieldDict, get_data_type, Fld.attrs, fieldSerializerName]
    rw [if_neg (by simp)]
    exact dlookup_dinsert_self _ _ _
  · simp only [fieldDict, get_data_type, Fld.attrs, fieldSerializerName]
    rw [if_pos trivial]
    by_cases hp : isPrimitive a.data_type = true
    · rw [if_pos hp, dlookup_dinsert_ne _ _ _ _ (by decide),
          dlookup_dinsert_self]
    · rw [if_neg hp, dlookup_dinsert_ne _ _ _ _ (by decide),
          dlookup_dinsert_self]
  · simp only [fieldDict, get_data_type, Fld.attrs, fieldSerializerName]
    rw [if_pos trivial]
    by_cases hp : isPrimitive a.data_type = true
    · rw [if_pos hp, if_pos hp, dlookup_dinsert_self, if_pos hp]
    · rw [if_neg hp, if_neg hp, dlookup_dinsert_self, if_neg hp]

/-- Counterexample to C5 as stated: for a field that is itself a
serializer, the emitted `type` is the serializer's name, not the data
type obtained from `get_data_type`. -/
theorem claim_C5_counterexample :
    dlookup (fieldDict (Fld.nested W.aPlain false (Ser.mk "Comment" Flds.nil)))
        "type" = some (JVal.str "Comment") ∧
    get_data_type (Fld.nested W.aPlain false (Ser.mk "Comment" Flds.nil)) =
      "string" ∧
    ¬ (some (JVal.str "Comment") = some (JVal.str "string")) := by
  refine ⟨rfl, rfl, ?_⟩
  intro h
  have h2 : JVal.str "Comment" = JVal.str "string" := Option.some.inj h
  have h3 : "Comment" = "string" :=
    congrArg (fun v => match v with | JVal.str t => t | _ => "") h2
  exact absurd h3 (by decide)

/-- C5 (amended): every field's `format` is the first element of the
`PRIMITIVES` entry for its data type when that data type is a known
primitive and `string` otherwise; the `type` is the data type from
`get_data_type` for every field that is not itself a serializer
(serializer-typed fields get their `type` overwritten as in C4). -/
theorem claim_C5 (f : Fld) :
    (∀ fmt fmts, primitivesGet (get_data_type f) = some (fmt :: fmts) →
      dlookup (fieldDict f) "format" = some (JVal.str fmt)) ∧
    (primitivesGet (get_data_type f) = none →
      dlookup (fieldDict f) "format" = some (JVal.str "string")) ∧
    (∀ a, f = Fld.prim a →
      dlookup (fieldDict f) "type" = some (JVal.str (get_data_type f))) := by
  refine ⟨?_, ?_, ?_⟩
  · intro fmt fmts hpg
    rw [fieldDict_format]
    have hp : isPrimitive (get_data_type f) = true := by
      rw [isPrimitive_eq_isSome, hpg]
      rfl
    rw [if_pos hp, hpg]
    rfl
  · intro hpg
    rw [fieldDict_format]
    have hp : isPrimitive (get_data_type f) = false := by
      rw [isPrimitive_eq_isSome, hpg]
      rfl
    rw [if_neg (by simp [hp])]
  · intro a hf
    subst hf
    rw [fieldDict_prim_type]
    rfl

/-- Witness for C5: an integer field gets format `int32`, the first
element of the `integer` row of `PRIMITIVES`. -/
theorem claim_C5_witness :
    primitivesGet (get_data_type (Fld.prim W.aInt)) =
      some ("int32" :: ["int64"]) ∧
    dlookup (fieldDict (Fld.prim W.aInt)) "format" =
      some (JVal.str "int32") :=
  ⟨rfl, (claim_C5 (Fld.prim W.aInt)).1 "int32" ["int64"] rfl⟩

/-- C9: an integer-typed field carries `minimum` and `maximum` exactly
when its `max_val` is set (both keyed off `max_val`; a field with only
`min_val` set gets neither), `minimum` holding `min_val` and `maximum`
holding `max_val`. -/
theorem claim_C9 (f : Fld) (hint : get_data_type f = "integer") :
    (hasKey (fieldDict f) "minimum" = true ↔ f.attrs.max_val ≠ none) ∧
    (hasKey (fieldDict f) "maximum" = true ↔ f.attrs.max_val ≠ none) ∧
    (∀ mv, f.attrs.max_val = some mv →
      dlookup (fieldDict f) "minimum" = some (jOptInt f.attrs.min_val) ∧
      dlookup (fieldDict f) "maximum" = some (JVal.int mv)) := by
  obtain ⟨hmin, hmax⟩ := fieldDict_min_max f
  simp only [hint] at hmin hmax
  have hb : (("integer" : String) == "integer") = true := by decide
  simp only [hb, Bool.and_true] at hmin hmax
  refine ⟨?_, ?_, ?_⟩
  · rw [hasKey_eq_isSome, hmin]
    cases hmv : f.attrs.max_val with
    | none => simp
    | some mv => simp
  · rw [hasKey_eq_isSome, hmax]
    cases hmv : f.attrs.max_val with
    | none => simp
    | some mv => simp
  · intro mv hmv
    rw [hmv] at hmin hmax
    constructor
    · rw [hmin]
      simp
    · rw [hmax]
      simp [jOptInt]

/-- Witness for C9: the integer field with `min_val = 1`, `max_val = 10`
carries both bounds. -/
theorem claim_C9_witness :
    (get_data_type (Fld.prim W.aInt) = "integer") ∧
    ((hasKey (fieldDict (Fld.prim W.aInt)) "minimum" = true ↔
        (Fld.prim W.aInt).attrs.max_val ≠ none) ∧
     (hasKey (fieldDict (Fld.prim W.aInt)) "maximum" = true ↔
        (Fld.prim W.aInt).attrs.max_val ≠ none) ∧
     (∀ mv, (Fld.prim W.aInt).attrs.max_val = some mv →
        dlookup (fieldDict (Fld.prim W.aInt)) "minimum" =
          some (jOptInt (Fld.prim W.aInt).attrs.min_val) ∧
        dlookup (fieldDict (Fld.prim W.aInt)) "maximum" =
          some (JVal.int mv))) :=
  ⟨rfl, claim_C9 (Fld.prim W.aInt) rfl⟩

/-! ## Response-type claims -/

/-- Counterexample to C2 as stated: the code removes every occurrence of
`ViewSet`, `APIView` and `View` from the view class name (Python
`str.replace`), not just trailing suffixes: for a view named `ViewerView`
the registered response-type name starts with `er`, not `Viewer`. -/
theorem claim_C2_counterexample :
    (W.miRT.docParser.response_type).isSome = true ∧
    (get_method_response_type [] "ViewerView" W.miRT
        (get_method_serializer W.miRT)).1 =
      some "erPartialUpdateResponse" ∧
    viewShortNameSpec "ViewerView" ++
        pyReplace (pyTitle W.miRT.method) "_" "" ++ "Response" =
      "ViewerPartialUpdateResponse" ∧
    ¬ (some ("erPartialUpdateResponse" : String) =
        some ("ViewerPartialUpdateResponse" : String)) := by
  refine ⟨rfl, ?_, ?_, by decide⟩
  · rfl
  · rfl

/-- C2 (amended): a docstring-provided response type discards the
introspected serializer, names the operation type
`{view}{method}Response` with every occurrence of `ViewSet`, `APIView`
and `View` removed from the view class name, registers that name in
`explicit_response_types`, and a subsequent `get_models` call includes it
as a model with matching `id`; without the override the operation type is
the introspected serializer's name, or None without a serializer. -/
theorem claim_C2 (ert : List (String × JVal)) (cb : String)
    (mi : MethodIntrospector) :
    (∀ rt, mi.docParser.response_type = some rt →
      get_method_serializer mi = none ∧
      (get_method_response_type ert cb mi (get_method_serializer mi)).1 =
        some (responseTypeName cb mi.method) ∧
      (get_method_response_type ert cb mi (get_method_serializer mi)).2 =
        dinsert ert (responseTypeName cb mi.method)
          (JVal.obj [("id", JVal.str (responseTypeName cb mi.method)),
                     ("properties", rt)]) ∧
      ∀ apis expl,
        dlookup (get_models apis
            ⟨expl,
             (get_method_response_type ert cb mi
               (get_method_serializer mi)).2, []⟩)
          (responseTypeName cb mi.method) =
        some (JVal.obj [("id", JVal.str (responseTypeName cb mi.method)),
                        ("properties", rt)])) ∧
    (mi.docParser.response_type = none →
      (get_method_response_type ert cb mi (get_method_serializer mi)).1 =
        getSerializerName (get_method_serializer mi) ∧
      (get_method_response_type ert cb mi (get_method_serializer mi)).2 =
        ert) := by
  constructor
  · intro rt hrt
    have hser : get_method_serializer mi = none := by
      unfold get_method_serializer
      rw [hrt]
      rfl
    have hresp : get_method_response_type ert cb mi
        (get_method_serializer mi) =
        (some (responseTypeName cb mi.method),
         dinsert ert (responseTypeName cb mi.method)
           (JVal.obj [("id", JVal.str (responseTypeName cb mi.method)),
                      ("properties", rt)])) := by
      simp only [get_method_response_type, hrt]
      rfl
    refine ⟨hser, by rw [hresp], by rw [hresp], ?_⟩
    intro apis expl
    rw [hresp]
    show dlookup
        (dupdate ((modelSerializers apis expl).foldl
            registerSerializerModels [])
          (dinsert ert (responseTypeName cb mi.method)
            (JVal.obj [("id", JVal.str (responseTypeName cb mi.method)),
                       ("properties", rt)])))
        (responseTypeName cb mi.method) = _
    rw [dlookup_dupdate_dinsert]
  · intro hnone
    cases hs : getSerializerName (get_method_serializer mi) with
    | none =>
        unfold get_method_response_type
        rw [hnone, hs]
        exact ⟨rfl, rfl⟩
    | some n =>
        unfold get_method_response_type
        rw [hnone, hs]
        exact ⟨rfl, rfl⟩

/-- Witness for C2: a docstring response type on `partial_update` of
`UserViewSet` registers `UserPartialUpdateResponse` and a following
`get_models` run returns it. -/
theorem claim_C2_witness :
    (W.miRT.docParser.response_type =
      some (JVal.obj [("x", JVal.str "y")])) ∧
    get_method_serializer W.miRT = none ∧
    (get_method_response_type [] "UserViewSet" W.miRT
        (get_method_serializer W.miRT)).1 =
      some "UserPartialUpdateResponse" ∧
    dlookup (get_models [W.api1]
        ⟨[],
         (get_method_response_type [] "UserViewSet" W.miRT
           (get_method_serializer W.miRT)).2, []⟩)
        "UserPartialUpdateResponse" =
      some (JVal.obj [("id", JVal.str "UserPartialUpdateResponse"),
                      ("properties", JVal.obj [("x", JVal.str "y")])]) := by
  obtain ⟨h1, h2, _, h4⟩ :=
    (claim_C2 [] "UserViewSet" W.miRT).1 (JVal.obj [("x", JVal.str "y")]) rfl
  exact ⟨rfl, h1, h2, h4 [W.api1] []⟩

/-! ## `generate` and `get_operations` claims -/

theorem get_method_response_type_fst (ert1 ert2 : List (String × JVal))
    (cb : String) (mi : MethodIntrospector) (s : Option Ser) :
    (get_method_response_type ert1 cb mi s).1 =
      (get_method_response_type ert2 cb mi s).1 := by
  simp only [get_method_response_type]
  cases mi.docParser.response_type with
  | some rt => rfl
  | none => cases getSerializerName s <;> rfl

theorem mkOperation_fst (ert1 ert2 : List (String × JVal)) (cb : String)
    (mi : MethodIntrospector) :
    (mkOperation ert1 cb mi).1 = (mkOperation ert2 cb mi).1 := by
  have hfst := get_method_response_type_fst ert1 ert2 cb mi
    (get_method_serializer mi)
  rcases hA : get_method_response_type ert1 cb mi (get_method_serializer mi)
    with ⟨r1, e1⟩
  rcases hB : get_method_response_type ert2 cb mi (get_method_serializer mi)
    with ⟨r2, e2⟩
  rw [hA, hB] at hfst
  simp only at hfst
  subst hfst
  simp only [mkOperation, hA, hB]

theorem operationsLoop_fst (cb : String) :
    ∀ (ms : List (Option MethodIntrospector))
      (ert1 ert2 : List (String × JVal)),
      (operationsLoop ert1 cb ms).1 = (operationsLoop ert2 cb ms).1
  | [], _, _ => rfl
  | none :: rest, e1, e2 => operationsLoop_fst cb rest e1 e2
  | some mi :: rest, e1, e2 => by
      by_cases hopt : (mi.http_method == "OPTIONS") = true
      · have h1 : operationsLoop e1 cb (some mi :: rest) =
            operationsLoop e1 cb rest := by
          simp only [operationsLoop, hopt]
          rfl
        have h2 : operationsLoop e2 cb (some mi :: rest) =
            operationsLoop e2 cb rest := by
          simp only [operationsLoop, hopt]
          rfl
        rw [h1, h2]
        exact operationsLoop_fst cb rest e1 e2
      · have hop := mkOperation_fst e1 e2 cb mi
        rcases hA : mkOperation e1 cb mi with ⟨opA, eA⟩
        rcases hB : mkOperation e2 cb mi with ⟨opB, eB⟩
        rw [hA, hB] at hop
        simp only at hop
        have hC := operationsLoop_fst cb rest eA eB
        have s1 : operationsLoop e1 cb (some mi :: rest) =
            (JVal.obj opA :: (operationsLoop eA cb rest).1,
             (operationsLoop eA cb rest).2) := by
          simp only [operationsLoop, hopt, hA]
          rfl
        have s2 : operationsLoop e2 cb (some mi :: rest) =
            (JVal.obj opB :: (operationsLoop eB cb rest).1,
             (operationsLoop eB cb rest).2) := by
          simp only [operationsLoop, hopt, hB]
          rfl
        rw [s1, s2]
        simp only []
        rw [hop, hC]

theorem get_operations_fst (ert1 ert2 : List (String × JVal)) (api : Api) :
    (get_operations ert1 api).1 = (get_operations ert2 api).1 :=
  operationsLoop_fst api.introspector.callback_name
    api.introspector.methods ert1 ert2

/-- C6: `generate` returns one entry per API, in input order, each a
dictionary with exactly the keys `description`, `path` (the API's path)
and `operations` (the `get_operations` result for that API, at the
class-state reached while processing the previous APIs). -/
theorem claim_C6 (ert : List (String × JVal)) (apis : List Api) :
    ((generate ert apis).1).length = apis.length ∧
    (∀ i (hi : i < apis.length),
      ((generate ert apis).1).getD i JVal.null =
        JVal.obj
          [("description",
            JVal.str ((apis.get ⟨i, hi⟩).introspector.description)),
           ("path", JVal.str (apis.get ⟨i, hi⟩).path),
           ("operations",
            JVal.arr (get_operations ert (apis.get ⟨i, hi⟩)).1)]) := by
  induction apis generalizing ert with
  | nil =>
      refine ⟨rfl, ?_⟩
      intro i hi
      exact absurd hi (by simp)
  | cons api rest ih =>
      rcases hop : get_operations ert api with ⟨ops, ert2⟩
      rcases hrec : generate ert2 rest with ⟨docs, ert3⟩
      have hgen : generate ert (api :: rest) =
          ((JVal.obj [("description", JVal.str api.introspector.description),
                      ("path", JVal.str api.path),
                      ("operations", JVal.arr ops)]) :: docs, ert3) := by
        simp only [generate, hop, hrec]
      constructor
      · rw [hgen]
        have hlen := (ih ert2).1
        rw [hrec] at hlen
        simpa using hlen
      · intro i hi
        cases i with
        | zero =>
            rw [hgen]
            have hfst : (get_operations ert api).1 = ops := by rw [hop]
            simp [List.getD, hfst]
        | succ j =>
            have hj : j < rest.length := by simpa using hi
            have he := (ih ert2).2 j hj
            rw [hrec] at he
            rw [hgen]
            have hind : (get_operations ert2 (rest.get ⟨j, hj⟩)).1 =
                (get_operations ert (rest.get ⟨j, hj⟩)).1 :=
              get_operations_fst ert2 ert (rest.get ⟨j, hj⟩)
            rw [hind] at he
            simpa [List.getD] using he

/-- Witness for C6: one API produces one entry with the three keys. -/
theorem claim_C6_witness :
    ((0 : Nat) < [W.api1].length) ∧
    ((generate [] [W.api1]).1).length = [W.api1].length ∧
    (((generate [] [W.api1]).1).getD 0 JVal.null =
      JVal.obj
        [("description",
          JVal.str (([W.api1].get ⟨0, by decide⟩).introspector.description)),
         ("path", JVal.str (([W.api1].get ⟨0, by decide⟩).path)),
         ("operations",
          JVal.arr (get_operations [] ([W.api1].get ⟨0, by decide⟩)).1)]) :=
  ⟨by decide, (claim_C6 [] [W.api1]).1,
   (claim_C6 [] [W.api1]).2 0 (by decide)⟩

theorem mem_operationsLoop (cb : String) :
    ∀ (ms : List (Option MethodIntrospector)) (ert : List (String × JVal))
      (op : JVal), op ∈ (operationsLoop ert cb ms).1 →
      ∃ mi ert2, (some mi) ∈ ms ∧ ¬ (mi.http_method = "OPTIONS") ∧
        op = JVal.obj (mkOperation ert2 cb mi).1
  | [], ert, op, hop => absurd hop (by simp [operationsLoop])
  | none :: rest, ert, op, hop => by
      obtain ⟨mi, ert2, hmem, hne, heq⟩ :=
        mem_operationsLoop cb rest ert op (by simpa [operationsLoop] using hop)
      exact ⟨mi, ert2, List.mem_cons_of_mem _ hmem, hne, heq⟩
  | some mi :: rest, ert, op, hop => by
      by_cases hopt : (mi.http_method == "OPTIONS") = true
      · have hskip : operationsLoop ert cb (some mi :: rest) =
            operationsLoop ert cb rest := by
          simp only [operationsLoop, hopt]
          rfl
        rw [hskip] at hop
        obtain ⟨mj, ert2, hmem, hne, heq⟩ :=
          mem_operationsLoop cb rest ert op hop
        exact ⟨mj, ert2, List.mem_cons_of_mem _ hmem, hne, heq⟩
      · rcases hmk : mkOperation ert cb mi with ⟨op1, ertB⟩
        rcases hrec : operationsLoop ertB cb rest with ⟨ops, ertC⟩
        have hstep : operationsLoop ert cb (some mi :: rest) =
            (JVal.obj op1 :: ops, ertC) := by
          simp only [operationsLoop, hopt, hmk, hrec]
          rfl
        rw [hstep] at hop
        rcases List.mem_cons.mp hop with h1 | h2
        · refine ⟨mi, ert, List.mem_cons_self _ _, by simpa using hopt, ?_⟩
          rw [h1, hmk]
        · obtain ⟨mj, ert2, hmem, hne, heq⟩ :=
            mem_operationsLoop cb rest ertB op (by rw [hrec]; exact h2)
          exact ⟨mj, ert2, List.mem_cons_of_mem _ hmem, hne, heq⟩

theorem mkOperation_keys (ert : List (String × JVal)) (cb : String)
    (mi : MethodIntrospector) :
    hasKey (mkOperation ert cb mi).1 "method" = true ∧
    hasKey (mkOperation ert cb mi).1 "summary" = true ∧
    hasKey (mkOperation ert cb mi).1 "nickname" = true ∧
    hasKey (mkOperation ert cb mi).1 "notes" = true ∧
    hasKey (mkOperation ert cb mi).1 "type" = true ∧
    (hasKey (mkOperation ert cb mi).1 "parameters" = true ↔
      ¬ (mi.parameters = [])) ∧
    (hasKey (mkOperation ert cb mi).1 "responseMessages" = true ↔
      ¬ (mi.docParser.response_messages = [])) := by
  rcases hrt : get_method_response_type ert cb mi (get_method_serializer mi)
    with ⟨rty, ert2⟩
  cases herr : mi.docParser.yaml_error with
  | none =>
      cases hpar : mi.parameters with
      | nil =>
          cases hmsg : mi.docParser.response_messages with
          | nil => simp [mkOperation, hrt, herr, hpar, hmsg, hasKey]
          | cons m ms => simp [mkOperation, hrt, herr, hpar, hmsg, hasKey]
      | cons p ps =>
          cases hmsg : mi.docParser.response_messages with
          | nil => simp [mkOperation, hrt, herr, hpar, hmsg, hasKey]
          | cons m ms => simp [mkOperation, hrt, herr, hpar, hmsg, hasKey]
  | some err =>
      cases hpar : mi.parameters with
      | nil =>
          cases hmsg : mi.docParser.response_messages with
          | nil => simp [mkOperation, hrt, herr, hpar, hmsg, hasKey, dinsert]
          | cons m ms =>
              simp [mkOperation, hrt, herr, hpar, hmsg, hasKey, dinsert]
      | cons p ps =>
          cases hmsg : mi.docParser.response_messages with
          | nil => simp [mkOperation, hrt, herr, hpar, hmsg, hasKey, dinsert]
          | cons m ms =>
              simp [mkOperation, hrt, herr, hpar, hmsg, hasKey, dinsert]

/-- C7: every operation produced by `get_operations` stems from a
non-OPTIONS method introspector of the API and contains the keys
`method`, `summary`, `nickname`, `notes` and `type`; it has a
`parameters` key exactly when the discovered parameter list is non-empty
and a `responseMessages` key exactly when the parsed response messages
are non-empty. -/
theorem claim_C7 (ert : List (String × JVal)) (api : Api) (op : JVal)
    (hop : op ∈ (get_operations ert api).1) :
    ∃ mi ert2, (some mi) ∈ api.introspector.methods ∧
      ¬ (mi.http_method = "OPTIONS") ∧
      op = JVal.obj (mkOperation ert2 api.introspector.callback_name mi).1 ∧
      hasKey (mkOperation ert2 api.introspector.callback_name mi).1
        "method" = true ∧
      hasKey (mkOperation ert2 api.introspector.callback_name mi).1
        "summary" = true ∧
      hasKey (mkOperation ert2 api.introspector.callback_name mi).1
        "nickname" = true ∧
      hasKey (mkOperation ert2 api.introspector.callback_name mi).1
        "notes" = true ∧
      hasKey (mkOperation ert2 api.introspector.callback_name mi).1
        "type" = true ∧
      (hasKey (mkOperation ert2 api.introspector.callback_name mi).1
        "parameters" = true ↔ ¬ (mi.parameters = [])) ∧
      (hasKey (mkOperation ert2 api.introspector.callback_name mi).1
        "responseMessages" = true ↔
        ¬ (mi.docParser.response_messages = [])) := by
  obtain ⟨mi, ert2, hmem, hne, heq⟩ :=
    mem_operationsLoop api.introspector.callback_name
      api.introspector.methods ert op hop
  obtain ⟨k1, k2, k3, k4, k5, k6, k7⟩ :=
    mkOperation_keys ert2 api.introspector.callback_name mi
  exact ⟨mi, ert2, hmem, hne, heq, k1, k2, k3, k4, k5, k6, k7⟩

/-- Witness for C7: the single GET operation of `api1`. -/
theorem claim_C7_witness :
    (JVal.obj (mkOperation [] "UserView" (W.mkMI (some W.simpleSer))).1 ∈
      (get_operations [] W.api1).1) ∧
    (∃ mi ert2, (some mi) ∈ W.api1.introspector.methods ∧
      ¬ (mi.http_method = "OPTIONS") ∧
      JVal.obj (mkOperation [] "UserView" (W.mkMI (some W.simpleSer))).1 =
        JVal.obj (mkOperation ert2 W.api1.introspector.callback_name mi).1 ∧
      hasKey (mkOperation ert2 W.api1.introspector.callback_name mi).1
        "method" = true ∧
      hasKey (mkOperation ert2 W.api1.introspector.callback_name mi).1
        "summary" = true ∧
      hasKey (mkOperation ert2 W.api1.introspector.callback_name mi).1
        "nickname" = true ∧
      hasKey (mkOperation ert2 W.api1.introspector.callback_name mi).1
        "notes" = true ∧
      hasKey (mkOperation ert2 W.api1.introspector.callback_name mi).1
        "type" = true ∧
      (hasKey (mkOperation ert2 W.api1.introspector.callback_name mi).1
        "parameters" = true ↔ ¬ (mi.parameters = [])) ∧
      (hasKey (mkOperation ert2 W.api1.introspector.callback_name mi).1
        "responseMessages" = true ↔
        ¬ (mi.docParser.response_messages = []))) := by
  have hop : JVal.obj (mkOperation [] "UserView"
      (W.mkMI (some W.simpleSer))).1 ∈ (get_operations [] W.api1).1 :=
    show _ ∈ [JVal.obj (mkOperation [] "UserView"
        (W.mkMI (some W.simpleSer))).1] from List.mem_singleton.mpr rfl
  exact ⟨hop, claim_C7 [] W.api1 _ hop⟩

/-- C10: a YAML parse error does not suppress the operation — it is still
emitted — and its `notes` become the method's notes with
`<pre>YAMLError:\n {err}</pre>` appended; without an error the notes are
unchanged. -/
theorem claim_C10 (ert : List (String × JVal)) (cb : String)
    (mi : MethodIntrospector) :
    (∀ err, mi.docParser.yaml_error = some err →
      dlookup (mkOperation ert cb mi).1 "notes" =
        some (JVal.str
          (mi.notes ++ "<pre>YAMLError:\n " ++ err ++ "</pre>"))) ∧
    (mi.docParser.yaml_error = none →
      dlookup (mkOperation ert cb mi).1 "notes" =
        some (JVal.str mi.notes)) ∧
    (∀ rest, ¬ (mi.http_method = "OPTIONS") →
      (operationsLoop ert cb (some mi :: rest)).1 =
        JVal.obj (mkOperation ert cb mi).1 ::
          (operationsLoop (mkOperation ert cb mi).2 cb rest).1) := by
  rcases hrt : get_method_response_type ert cb mi (get_method_serializer mi)
    with ⟨rty, ert2⟩
  refine ⟨?_, ?_, ?_⟩
  · intro err herr
    cases hpar : mi.parameters with
    | nil =>
        cases hmsg : mi.docParser.response_messages with
        | nil =>
            simp [mkOperation, hrt, herr, hpar, hmsg, dinsert, dlookup,
              List.find?]
        | cons m ms =>
            simp [mkOperation, hrt, herr, hpar, hmsg, dinsert, dlookup,
              List.find?]
    | cons p ps =>
        cases hmsg : mi.docParser.response_messages with
        | nil =>
            simp [mkOperation, hrt, herr, hpar, hmsg, dinsert, dlookup,
              List.find?]
        | cons m ms =>
            simp [mkOperation, hrt, herr, hpar, hmsg, dinsert, dlookup,
              List.find?]
  · intro herr
    cases hpar : mi.parameters with
    | nil =>
        cases hmsg : mi.docParser.response_messages with
        | nil =>
            simp [mkOperation, hrt, herr, hpar, hmsg, dlookup, List.find?]
        | cons m ms =>
            simp [mkOperation, hrt, herr, hpar, hmsg, dlookup, List.find?]
    | cons p ps =>
        cases hmsg : mi.docParser.response_messages with
        | nil =>
            simp [mkOperation, hrt, herr, hpar, hmsg, dlookup, List.find?]
        | cons m ms =>
            simp [mkOperation, hrt, herr, hpar, hmsg, dlookup, List.find?]
  · intro rest hopt
    have hb : (mi.http_method == "OPTIONS") = false := by simpa using hopt
    rcases hmk : mkOperation ert cb mi with ⟨op1, ertB⟩
    rcases hrec : operationsLoop ertB cb rest with ⟨ops, ertC⟩
    have hstep : operationsLoop ert cb (some mi :: rest) =
        (JVal.obj op1 :: ops, ertC) := by
      simp only [operationsLoop, hb, hmk, hrec]
      rfl
    rw [hstep]

/-- Witness for C10: a method with `yaml_error = "bad yaml"` still yields
its operation, with the error appended to the notes. -/
theorem claim_C10_witness :
    (W.miErr.docParser.yaml_error = some "bad yaml") ∧
    dlookup (mkOperation [] "V" W.miErr).1 "notes" =
      some (JVal.str
        ("base notes" ++ "<pre>YAMLError:\n " ++ "bad yaml" ++ "</pre>")) ∧
    ¬ (W.miErr.http_method = "OPTIONS") ∧
    (operationsLoop [] "V" [some W.miErr]).1 =
      JVal.obj (mkOperation [] "V" W.miErr).1 ::
        (operationsLoop (mkOperation [] "V" W.miErr).2 "V" []).1 :=
  ⟨rfl, (claim_C10 [] "V" W.miErr).1 "bad yaml" rfl, by decide,
   (claim_C10 [] "V" W.miErr).2.2 [] (by decide)⟩

end DocGen
